import Mathlib

/-!
# Dolev-Yao verification of the Needham-Schroeder-Lowe protocol: embedding

Shallow embedding of `src/examples/dolevyao_nsl.c`: the `item` term algebra,
the abstract integer pairing (`int_pair`, `int_left`, `int_right`), the
protocol-specific public classifier `mypub`, the API wrapper operations
(extractors, `encrypt`, `decrypt`, pairing), the client's response-validation
step, the attacker's action loop as a step relation on the world, and the
principal/key registry.
-/

namespace DolevYaoNSL

/-- The `item` inductive from the source: structured values standing for
bitstrings under the perfect-cryptography assumption. -/
inductive item where
  | key_item (creator : Int) (id : Int) (isPublicKey : Bool) (info : Int)
  | data_item (id : Int)
  | encrypted_item (keyCreator : Int) (id : Int) (info : Int) (payload : item)
  | pair_item (first : item) (second : item)
deriving DecidableEq

/-- Encoding of an integer as a natural number (bijection used to realise the
source's abstract `int_pair`/`int_left`/`int_right` fixpoints). -/
def encInt (i : Int) : Nat := if 0 ≤ i then 2 * i.natAbs else 2 * i.natAbs - 1

/-- Inverse of `encInt`. -/
def decInt (n : Nat) : Int := if n % 2 = 0 then ((n / 2 : Nat) : Int) else -(((n + 1) / 2 : Nat) : Int)

theorem decInt_encInt (i : Int) : decInt (encInt i) = i := by
  unfold decInt encInt
  split_ifs <;> omega

theorem encInt_decInt (n : Nat) : encInt (decInt n) = n := by
  unfold decInt encInt
  split_ifs <;> omega

/-- The source's `int_pair` fixpoint: an injective pairing of integers. -/
def int_pair (f s : Int) : Int := decInt (Nat.pair (encInt f) (encInt s))

/-- The source's `int_left` fixpoint. -/
def int_left (p : Int) : Int := decInt (Nat.unpair (encInt p)).1

/-- The source's `int_right` fixpoint. -/
def int_right (p : Int) : Int := decInt (Nat.unpair (encInt p)).2

/-- The source's lemma `int_left_int_pair`. -/
@[simp] theorem int_left_int_pair (f s : Int) : int_left (int_pair f s) = f := by
  unfold int_left int_pair
  rw [encInt_decInt, Nat.unpair_pair, decInt_encInt]

/-- The source's lemma `int_right_int_pair`. -/
@[simp] theorem int_right_int_pair (f s : Int) : int_right (int_pair f s) = s := by
  unfold int_right int_pair
  rw [encInt_decInt, Nat.unpair_pair, decInt_encInt]

theorem int_pair_left_right (p : Int) : int_pair (int_left p) (int_right p) = p := by
  unfold int_left int_right int_pair
  rw [encInt_decInt, encInt_decInt, Nat.pair_unpair, decInt_encInt]

attribute [irreducible] int_pair int_left int_right

theorem int_pair_inj {a b c d : Int} : int_pair a b = int_pair c d ↔ a = c ∧ b = d := by
  constructor
  · intro h
    exact ⟨by simpa using congrArg int_left h, by simpa using congrArg int_right h⟩
  · rintro ⟨rfl, rfl⟩; rfl

/-- The source's `mypub` fixpoint: the protocol-specific definition of which
item values may be sent into the world. Parametric in the `bad` oracle, which
the source declares as an abstract fixpoint. -/
def mypub (bad : Int → Bool) : item → Bool
  | .key_item o _k isPublicKey info =>
      isPublicKey || bad o || (int_left info == 1 && bad (int_right info)) ||
        (int_left info == 2 && bad (int_left (int_right info)))
  | .data_item _d => true
  | .encrypted_item creator _id info m =>
      mypub bad m ||
      match m with
      | .key_item creator0 _id0 isPublicKey0 info0 =>
          int_left info0 == 2 && creator == creator0 && !isPublicKey0 && info == int_pair 0 0 &&
          int_left (int_right info0) == int_left (int_right (int_right info0)) &&
          int_left (int_right (int_right (int_right info0))) == 0 &&
          int_right (int_right (int_right (int_right info0))) == int_pair 1 creator
      | .pair_item f s =>
          match s with
          | .key_item creator0 _id0 isPublicKey0 info0 =>
              info0 == int_pair 1 creator && f == .data_item creator0 && !isPublicKey0 &&
                info == int_pair 0 0
          | .pair_item fs ss =>
              match ss with
              | .key_item creator0 _id0 isPublicKey0 info0 =>
                  int_left info0 == 2 && creator == int_left (int_right info0) && !isPublicKey0 &&
                  f == .data_item creator0 && info == int_pair 0 0 &&
                  (mypub bad fs ||
                   match fs with
                   | .key_item creator1 _id1 isPublicKey1 info1 =>
                       creator1 == int_left (int_right (int_right info0)) &&
                       (if isPublicKey1 then (1 : Int) else 0) ==
                         int_left (int_right (int_right (int_right info0))) &&
                       info1 == int_right (int_right (int_right (int_right info0))) &&
                       creator1 == creator && !isPublicKey1 && info1 == int_pair 1 creator0
                   | _ => false)
              | _ => false
          | _ => false
      | _ => false
  | .pair_item f s => mypub bad f && mypub bad s

/-- The fields of a `key(item, creator, id, isPublicKey, info)` predicate in the
source: the contracts of `encrypt`/`decrypt` are stated against these. -/
structure KeyFields where
  creator : Int
  id : Int
  isPublicKey : Bool
  info : Int
deriving DecidableEq

/-- `create_data_item`: `ensures item(result, data_item(data))`. -/
def create_data_item (data : Int) : item := .data_item data

/-- `create_pair`: `ensures item(result, pair_item(f, s))`. -/
def create_pair (first second : item) : item := .pair_item first second

/-- `item_equals`: structural comparison, `result == (i1 == i2)`. -/
def item_equals (item1 item2 : item) : Bool := item1 == item2

/-- `check_is_key` aborts (`none`) if the item is not a key; on a key it
establishes the `key` predicate with the key's fields. -/
def check_is_key : item → Option KeyFields
  | .key_item creator id isPublicKey info => some ⟨creator, id, isPublicKey, info⟩
  | _ => none

/-- `item_get_data` aborts (`none`) if the item is not a data item. -/
def item_get_data : item → Option Int
  | .data_item d => some d
  | _ => none

/-- `pair_get_first` aborts (`none`) if the item is not a pair. -/
def pair_get_first : item → Option item
  | .pair_item f _s => some f
  | _ => none

/-- `pair_get_second` aborts (`none`) if the item is not a pair. -/
def pair_get_second : item → Option item
  | .pair_item _f s => some s
  | _ => none

/-- `encrypt` aborts (`none`) if the key is a private key; otherwise
`item(result, encrypted_item(creator, id, info, p))`. -/
def encrypt (key : KeyFields) (payload : item) : Option item :=
  if key.isPublicKey then some (.encrypted_item key.creator key.id key.info payload) else none

/-- `decrypt` aborts (`none`) if the key is a public key, and, per its contract,
only returns when the item is an `encrypted_item` whose key identity
(`creator0 == creator && id0 == id && info0 == info`) matches the key; the
result is the ciphertext's payload. -/
def decrypt (key : KeyFields) : item → Option item
  | .encrypted_item creator0 id0 info0 p =>
      if key.isPublicKey = false ∧ creator0 = key.creator ∧ id0 = key.id ∧ info0 = key.info then
        some p
      else none
  | _ => none

/-- The third step of `client` (source lines 341-350): receive a term, decrypt
with the client's private key, extract the server id, abort if it differs from
`server`, extract the echoed nonce, abort if it differs from `clientNonce`,
and continue with the extracted server nonce. -/
def clientStep3 (server : Int) (clientPrivateKey : KeyFields) (clientNonce : item)
    (received : item) : Option item :=
  match decrypt clientPrivateKey received with
  | none => none
  | some i5 =>
    match pair_get_first i5 with
    | none => none
    | some i6 =>
      match item_get_data i6 with
      | none => none
      | some s =>
        if s ≠ server then none
        else
          match pair_get_second i5 with
          | none => none
          | some i7 =>
            match pair_get_first i7 with
            | none => none
            | some i8 =>
              if !(item_equals clientNonce i8) then none
              else pair_get_second i7

/-- World-soundness: every term in the world satisfies `mypub`
(`net_send` requires `pub(d)`, so the world only ever holds public terms). -/
def worldSound (bad : Int → Bool) (w : List item) : Prop :=
  ∀ t ∈ w, mypub bad t = true

/-- One iteration of the `attacker` loop body, as a relation between the world
before and after: each case lists the terms the iteration `net_send`s, in
order, and the facts the iteration's receives/aborts established.
`net_receive` ensures `pub(d)`, so received terms carry a `mypub` hypothesis;
`check_is_key`, `encrypt` and `decrypt` abort unless their shape conditions
hold, so a completed iteration implies them. -/
inductive attackerStep (bad : Int → Bool) : List item → List item → Prop
  /-- case 0: create a keypair and leak both halves; `assume(bad(me))`. -/
  | leak (w : List item) (me id info : Int) (hbad : bad me = true) :
      attackerStep bad w (.key_item me id false info :: .key_item me id true info :: w)
  /-- case 1: publish an arbitrary data item. -/
  | pubData (w : List item) (d : Int) : attackerStep bad w (.data_item d :: w)
  /-- case 2: pair two received (hence public) items. -/
  | mkPair (w : List item) (a b : item) (ha : mypub bad a = true) (hb : mypub bad b = true) :
      attackerStep bad w (.pair_item a b :: w)
  /-- case 3: encrypt a received item with a received key; `encrypt` aborts
  unless the key is a public half. -/
  | doEncrypt (w : List item) (c id info : Int) (p : item)
      (hk : mypub bad (.key_item c id true info) = true) (hp : mypub bad p = true) :
      attackerStep bad w (.encrypted_item c id info p :: w)
  /-- case 4: deconstruct a received (hence public) pair; first is sent,
  then second. -/
  | unPair (w : List item) (a b : item) (h : mypub bad (.pair_item a b) = true) :
      attackerStep bad w (b :: a :: w)
  /-- case 5: decrypt a received item with a received key; `decrypt` aborts
  unless the key is a private half matching the ciphertext's key identity. -/
  | doDecrypt (w : List item) (c id info : Int) (p : item)
      (hk : mypub bad (.key_item c id false info) = true)
      (he : mypub bad (.encrypted_item c id info p) = true) :
      attackerStep bad w (p :: w)

/-- `n` iterations of the attacker loop. -/
inductive attackerSteps (bad : Int → Bool) : Nat → List item → List item → Prop
  | zero (w : List item) : attackerSteps bad 0 w w
  | succ (n : Nat) (w w' w'' : List item) (h : attackerStep bad w w')
      (hs : attackerSteps bad n w' w'') : attackerSteps bad (n + 1) w w''

/-- The principal and key registry: `principals(count)` and the per-principal
key counters of the `principal(id, keyCount)` predicates. -/
structure Registry where
  principalCount : Int
  keyCount : Int → Int

/-- The initial registry of `attacker`'s precondition: `principals(0)`. -/
def initRegistry : Registry := ⟨0, fun _ => 0⟩

/-- A registry operation: `create_principal` or `create_keypair` by
principal `p`. -/
inductive RegOp where
  | newPrincipal
  | newKeypair (p : Int)

/-- `create_principal` allocates id `count`, initialising its key counter to 0,
and increments the principal count; `create_keypair` for principal `p` with
counter `n` issues key index `n` and increments the counter. -/
def regStep (r : Registry) : RegOp → Registry
  | .newPrincipal =>
      ⟨r.principalCount + 1, fun q => if q = r.principalCount then 0 else r.keyCount q⟩
  | .newKeypair p =>
      ⟨r.principalCount, fun q => if q = p then r.keyCount q + 1 else r.keyCount q⟩

/-- The `(creator, index)` pairs issued by the `create_keypair` calls of a run. -/
def regIssued (r : Registry) : List RegOp → List (Int × Int)
  | [] => []
  | op :: ops =>
    match op with
    | RegOp.newPrincipal => regIssued (regStep r .newPrincipal) ops
    | RegOp.newKeypair p => (p, r.keyCount p) :: regIssued (regStep r (.newKeypair p)) ops

/-- A run is valid when every `create_keypair` is performed by a principal that
was created earlier (the call consumes a `principal(p, keyCount)` chunk, which
only `create_principal` produces, for ids `0 ≤ p < principalCount`). -/
def regValid (r : Registry) : List RegOp → Bool
  | [] => true
  | op :: ops =>
    match op with
    | RegOp.newPrincipal => regValid (regStep r .newPrincipal) ops
    | RegOp.newKeypair p =>
        decide (0 ≤ p ∧ p < r.principalCount) && regValid (regStep r (.newKeypair p)) ops


/-! ## Unfolding equations for `mypub`, one per payload shape of the source's
`switch` trees. -/

theorem mypub_key (bad : Int → Bool) (o k : Int) (b : Bool) (info : Int) :
    mypub bad (.key_item o k b info) =
      (b || bad o || (int_left info == 1 && bad (int_right info)) ||
        (int_left info == 2 && bad (int_left (int_right info)))) := rfl

theorem mypub_data (bad : Int → Bool) (d : Int) : mypub bad (.data_item d) = true := rfl

theorem mypub_pair (bad : Int → Bool) (f s : item) :
    mypub bad (.pair_item f s) = (mypub bad f && mypub bad s) := rfl

theorem mypub_enc_key (bad : Int → Bool) (c i info c0 i0 : Int) (b0 : Bool) (info0 : Int) :
    mypub bad (.encrypted_item c i info (.key_item c0 i0 b0 info0)) =
      (mypub bad (.key_item c0 i0 b0 info0) ||
        (int_left info0 == 2 && c == c0 && !b0 && info == int_pair 0 0 &&
         int_left (int_right info0) == int_left (int_right (int_right info0)) &&
         int_left (int_right (int_right (int_right info0))) == 0 &&
         int_right (int_right (int_right (int_right info0))) == int_pair 1 c)) := rfl

theorem mypub_enc_data (bad : Int → Bool) (c i info d : Int) :
    mypub bad (.encrypted_item c i info (.data_item d)) = true := rfl

theorem mypub_enc_enc (bad : Int → Bool) (c i info c1 i1 info1 : Int) (p1 : item) :
    mypub bad (.encrypted_item c i info (.encrypted_item c1 i1 info1 p1)) =
      (mypub bad (.encrypted_item c1 i1 info1 p1) || false) := rfl

theorem mypub_enc_pair_key (bad : Int → Bool) (c i info : Int) (f : item)
    (c0 i0 : Int) (b0 : Bool) (info0 : Int) :
    mypub bad (.encrypted_item c i info (.pair_item f (.key_item c0 i0 b0 info0))) =
      (mypub bad (.pair_item f (.key_item c0 i0 b0 info0)) ||
        (info0 == int_pair 1 c && f == .data_item c0 && !b0 && info == int_pair 0 0)) := rfl

theorem mypub_enc_pair_data (bad : Int → Bool) (c i info : Int) (f : item) (d : Int) :
    mypub bad (.encrypted_item c i info (.pair_item f (.data_item d))) =
      (mypub bad (.pair_item f (.data_item d)) || false) := rfl

theorem mypub_enc_pair_enc (bad : Int → Bool) (c i info : Int) (f : item)
    (c1 i1 info1 : Int) (p1 : item) :
    mypub bad (.encrypted_item c i info (.pair_item f (.encrypted_item c1 i1 info1 p1))) =
      (mypub bad (.pair_item f (.encrypted_item c1 i1 info1 p1)) || false) := rfl

theorem mypub_enc_pair_pair_key (bad : Int → Bool) (c i info : Int) (f fs : item)
    (c0 i0 : Int) (b0 : Bool) (info0 : Int) :
    mypub bad (.encrypted_item c i info (.pair_item f (.pair_item fs (.key_item c0 i0 b0 info0)))) =
      (mypub bad (.pair_item f (.pair_item fs (.key_item c0 i0 b0 info0))) ||
        (int_left info0 == 2 && c == int_left (int_right info0) && !b0 &&
         f == .data_item c0 && info == int_pair 0 0 &&
         (mypub bad fs ||
          match fs with
          | .key_item creator1 _id1 isPublicKey1 info1 =>
              creator1 == int_left (int_right (int_right info0)) &&
              (if isPublicKey1 then (1 : Int) else 0) ==
                int_left (int_right (int_right (int_right info0))) &&
              info1 == int_right (int_right (int_right (int_right info0))) &&
              creator1 == c && !isPublicKey1 && info1 == int_pair 1 c0
          | _ => false))) := rfl

theorem mypub_enc_pair_pair_data (bad : Int → Bool) (c i info : Int) (f fs : item) (d : Int) :
    mypub bad (.encrypted_item c i info (.pair_item f (.pair_item fs (.data_item d)))) =
      (mypub bad (.pair_item f (.pair_item fs (.data_item d))) || false) := rfl

theorem mypub_enc_pair_pair_enc (bad : Int → Bool) (c i info : Int) (f fs : item)
    (c1 i1 info1 : Int) (p1 : item) :
    mypub bad (.encrypted_item c i info (.pair_item f (.pair_item fs (.encrypted_item c1 i1 info1 p1)))) =
      (mypub bad (.pair_item f (.pair_item fs (.encrypted_item c1 i1 info1 p1))) || false) := rfl

theorem mypub_enc_pair_pair_pair (bad : Int → Bool) (c i info : Int) (f fs u v : item) :
    mypub bad (.encrypted_item c i info (.pair_item f (.pair_item fs (.pair_item u v)))) =
      (mypub bad (.pair_item f (.pair_item fs (.pair_item u v))) || false) := rfl

/-- The decryption rule is admissible for the classifier: if a ciphertext and
its matching private key both satisfy `mypub`, so does the payload (the case
analysis of `attacker` case 5). -/
theorem mypub_decrypt_closure (bad : Int → Bool) (c i info : Int) (p : item)
    (he : mypub bad (.encrypted_item c i info p) = true)
    (hk : mypub bad (.key_item c i false info) = true) :
    mypub bad p = true := by
  rcases p with ⟨c0, i0, b0, info0⟩ | d | ⟨ec, ei, einfo, ep⟩ | ⟨f, s⟩
  · rw [mypub_enc_key, Bool.or_eq_true] at he
    rcases he with he | he
    · exact he
    · simp only [Bool.and_eq_true, beq_iff_eq, Bool.not_eq_true'] at he
      obtain ⟨⟨⟨⟨⟨⟨h2, hcc⟩, hb0⟩, hinfo⟩, -⟩, -⟩, -⟩ := he
      subst hinfo hcc hb0
      rw [mypub_key] at hk
      simp only [int_left_int_pair, int_right_int_pair] at hk
      simp only [Bool.or_eq_true, Bool.and_eq_true, beq_iff_eq] at hk
      have hbc : bad c = true := by
        rcases hk with ((h | h) | ⟨h, -⟩) | ⟨h, -⟩ <;> first | exact h | simp at h
      rw [mypub_key]
      simp [hbc]
  · exact mypub_data bad d
  · rw [mypub_enc_enc, Bool.or_false] at he
    exact he
  · rcases s with ⟨c0, i0, b0, info0⟩ | d | ⟨ec, ei, einfo, ep⟩ | ⟨fs, ss⟩
    · rw [mypub_enc_pair_key, Bool.or_eq_true] at he
      rcases he with he | he
      · exact he
      · simp only [Bool.and_eq_true, beq_iff_eq, Bool.not_eq_true'] at he
        obtain ⟨⟨⟨hinfo0, hf⟩, hb0⟩, hinfo⟩ := he
        subst hinfo hinfo0 hf hb0
        rw [mypub_key] at hk
        simp only [int_left_int_pair, int_right_int_pair] at hk
        simp only [Bool.or_eq_true, Bool.and_eq_true, beq_iff_eq] at hk
        have hbc : bad c = true := by
          rcases hk with ((h | h) | ⟨h, _⟩) | ⟨h, _⟩ <;> first | exact h | simp at h
        rw [mypub_pair, mypub_data, mypub_key]
        simp [int_left_int_pair, int_right_int_pair, hbc]
    · rw [mypub_enc_pair_data, Bool.or_false] at he
      exact he
    · rw [mypub_enc_pair_enc, Bool.or_false] at he
      exact he
    · rcases ss with ⟨c0, i0, b0, info0⟩ | d | ⟨ec, ei, einfo, ep⟩ | ⟨u, v⟩
      · rw [mypub_enc_pair_pair_key, Bool.or_eq_true] at he
        rcases he with he | he
        · exact he
        · rw [Bool.and_eq_true, Bool.and_eq_true, Bool.and_eq_true, Bool.and_eq_true,
            Bool.and_eq_true] at he
          obtain ⟨⟨⟨⟨⟨h2, hcl⟩, hb0⟩, hf⟩, hinfo⟩, hfs⟩ := he
          rw [beq_iff_eq] at h2 hcl hf hinfo
          rw [Bool.not_eq_true'] at hb0
          subst hinfo hf hb0
          -- from hk with info = int_pair 0 0: bad c = true
          rw [mypub_key] at hk
          simp only [int_left_int_pair, int_right_int_pair] at hk
          simp only [Bool.or_eq_true, Bool.and_eq_true, beq_iff_eq] at hk
          have hbc : bad c = true := by
            rcases hk with ((h | h) | ⟨h, _⟩) | ⟨h, _⟩ <;> first | exact h | simp at h
          rw [mypub_pair, mypub_pair, mypub_data, Bool.true_and, Bool.and_eq_true]
          constructor
          · -- mypub fs
            rw [Bool.or_eq_true] at hfs
            rcases hfs with hfs | hfs
            · exact hfs
            · rcases fs with ⟨c1, i1, b1, info1⟩ | d1 | ⟨ec1, ei1, einfo1, ep1⟩ | ⟨u1, v1⟩ <;>
                simp only at hfs
              · simp only [Bool.and_eq_true, beq_iff_eq, Bool.not_eq_true'] at hfs
                obtain ⟨⟨⟨⟨⟨-, -⟩, -⟩, hc1c⟩, hb1⟩, -⟩ := hfs
                subst hc1c hb1
                rw [mypub_key]
                simp [hbc]
              · exact absurd hfs (by simp)
              · exact absurd hfs (by simp)
              · exact absurd hfs (by simp)
          · -- mypub ss
            rw [mypub_key]
            rw [h2, ← hcl]
            simp [hbc]
      · rw [mypub_enc_pair_pair_data, Bool.or_false] at he
        exact he
      · rw [mypub_enc_pair_pair_enc, Bool.or_false] at he
        exact he
      · rw [mypub_enc_pair_pair_pair, Bool.or_false] at he
        exact he

/-! ## The claims -/

/-- C2: the classifier is closed under the decryption rule. For every term
`encrypted_item(c, i, info, p)` satisfying `mypub` whose matching private key
`key_item(c, i, false, info)` also satisfies `mypub`, the payload `p` satisfies
`mypub`, so the attacker's decrypt-and-publish step publishes only public
terms. -/
theorem decryption_rule_closed (bad : Int → Bool) (c i info : Int) (p : item)
    (he : mypub bad (.encrypted_item c i info p) = true)
    (hk : mypub bad (.key_item c i false info) = true) :
    mypub bad p = true :=
  mypub_decrypt_closure bad c i info p he hk

/-- C2 witness: the rule applied at a concrete ciphertext and private key. -/
theorem decryption_rule_closed_witness : mypub (fun _ => true) (item.data_item 0) = true :=
  decryption_rule_closed (fun _ => true) 0 0 (int_pair 0 0) (.data_item 0)
    (by rw [mypub_enc_data]) (by rw [mypub_key]; simp)

/-- C4: key classification. A `key_item(creator, index, isPublicKey, info)` is
public exactly when it is a public half, or its creator is bad, or its `info`
tag marks it as a nonce belonging to a bad principal under the two nonce-info
shapes used: `int_pair 1 owner` with `owner` bad, and
`int_pair 2 (int_pair client rest)` with `client` bad. -/
theorem key_classification (bad : Int → Bool) (creator index : Int) (isPublicKey : Bool)
    (info : Int) :
    mypub bad (.key_item creator index isPublicKey info) = true ↔
      (isPublicKey = true ∨ bad creator = true ∨
        (∃ owner, info = int_pair 1 owner ∧ bad owner = true) ∨
        (∃ client rest, info = int_pair 2 (int_pair client rest) ∧ bad client = true)) := by
  rw [mypub_key]
  simp only [Bool.or_eq_true, Bool.and_eq_true, beq_iff_eq]
  constructor
  · rintro (((h | h) | ⟨h1, h2⟩) | ⟨h1, h2⟩)
    · exact Or.inl h
    · exact Or.inr (Or.inl h)
    · exact Or.inr (Or.inr (Or.inl ⟨int_right info, by rw [← h1, int_pair_left_right], h2⟩))
    · refine Or.inr (Or.inr (Or.inr ⟨int_left (int_right info), int_right (int_right info), ?_, h2⟩))
      rw [int_pair_left_right, ← h1, int_pair_left_right]
  · rintro (h | h | ⟨owner, hinfo, h⟩ | ⟨client, rest, hinfo, h⟩)
    · exact Or.inl (Or.inl (Or.inl h))
    · exact Or.inl (Or.inl (Or.inr h))
    · subst hinfo
      exact Or.inl (Or.inr ⟨by simp, by simpa⟩)
    · subst hinfo
      exact Or.inr ⟨by simp, by simpa⟩

/-- C5: the honest client's first message
`{Data(client), Key(client, n, private, info = (1, server))}` encrypted under
the server's encryption key satisfies `mypub` for every `bad`, even though
(second conjunct) the client-nonce payload itself is non-public when neither
principal is bad; this is what lets the client's first `net_send` meet the
world's `pub` precondition. -/
theorem client_first_message_public (bad : Int → Bool) (client server n spkid : Int) :
    mypub bad (.encrypted_item server spkid (int_pair 0 0)
      (.pair_item (.data_item client) (.key_item client n false (int_pair 1 server)))) = true ∧
    (bad client = false → bad server = false →
      mypub bad (.key_item client n false (int_pair 1 server)) = false) := by
  constructor
  · rw [mypub_enc_pair_key]
    simp
  · intro hc hs
    rw [mypub_key]
    simp [hc, hs]

/-- C6: pair classification. `mypub (create_pair f s)` equals
`mypub f && mypub s`: a pair is public iff both components are, so pairing two
public terms yields a public term and both projections of a public pair are
public, matching the attacker's pair construction and deconstruction. -/
theorem pair_classification (bad : Int → Bool) (f s : item) :
    mypub bad (create_pair f s) = (mypub bad f && mypub bad s) := by
  rw [create_pair, mypub_pair]

/-- C8: extractor failure semantics. Each extractor (`item_get_data`,
`pair_get_first`/`pair_get_second`, `check_is_key`) returns the corresponding
field(s) on a term of the expected variant and fails with a modelled
`ShapeMismatch` abort (`none`, never a crash: the functions are total) on every
term of a different variant; the argument term is a pure value, so it is left
unchanged. -/
theorem extractor_shape_semantics (t : item) :
    (∀ d, item_get_data (item.data_item d) = some d) ∧
    ((∀ d, t ≠ item.data_item d) → item_get_data t = none) ∧
    (∀ f s, pair_get_first (item.pair_item f s) = some f) ∧
    (∀ f s, pair_get_second (item.pair_item f s) = some s) ∧
    ((∀ f s, t ≠ item.pair_item f s) → pair_get_first t = none ∧ pair_get_second t = none) ∧
    (∀ c k b info, check_is_key (item.key_item c k b info) = some ⟨c, k, b, info⟩) ∧
    ((∀ c k b info, t ≠ item.key_item c k b info) → check_is_key t = none) := by
  refine ⟨fun d => rfl, ?_, fun f s => rfl, fun f s => rfl, ?_, fun c k b info => rfl, ?_⟩
  · intro h
    rcases t with ⟨c, k, b, info⟩ | d | ⟨c, i, info, pl⟩ | ⟨f, s⟩
    · rfl
    · exact absurd rfl (h d)
    · rfl
    · rfl
  · intro h
    rcases t with ⟨c, k, b, info⟩ | d | ⟨c, i, info, pl⟩ | ⟨f, s⟩
    · exact ⟨rfl, rfl⟩
    · exact ⟨rfl, rfl⟩
    · exact ⟨rfl, rfl⟩
    · exact absurd rfl (h f s)
  · intro h
    rcases t with ⟨c, k, b, info⟩ | d | ⟨c, i, info, pl⟩ | ⟨f, s⟩
    · exact absurd rfl (h c k b info)
    · rfl
    · rfl
    · rfl

/-- C9: `decrypt key t` succeeds with payload `p` exactly when the key is a
private half and `t` is an `encrypted_item` whose key identity equals the
key's `(creator, id, info)`; in every other case (public key, non-encrypted
argument, or mismatched key identity) it aborts (`none`) rather than
returning. -/
theorem decrypt_characterization (key : KeyFields) (t p : item) :
    decrypt key t = some p ↔
      (key.isPublicKey = false ∧ t = item.encrypted_item key.creator key.id key.info p) := by
  rcases t with ⟨c0, i0, b0, info0⟩ | d | ⟨c0, i0, info0, pl⟩ | ⟨f, s⟩
  · simp [decrypt]
  · simp [decrypt]
  · rw [decrypt]
    split_ifs with h
    · obtain ⟨hb, hc, hi, hinfo⟩ := h
      subst hc hi hinfo
      simp [hb]
    · constructor
      · intro h'
        exact absurd h' (by simp)
      · rintro ⟨hb, heq⟩
        injection heq with hc hi hinfo hpl
        exact absurd ⟨hb, hc, hi, hinfo⟩ h
  · simp [decrypt]

/-- A ciphertext over a public payload is public (first disjunct of the
`encrypted_item` case of `mypub`). -/
theorem mypub_enc_intro (bad : Int → Bool) (c i info : Int) (m : item)
    (h : mypub bad m = true) : mypub bad (.encrypted_item c i info m) = true := by
  rcases m with ⟨c0, i0, b0, info0⟩ | d | ⟨c1, i1, inf1, p1⟩ | ⟨f, s⟩
  · rw [mypub_enc_key, h, Bool.true_or]
  · exact mypub_enc_data bad c i info d
  · rw [mypub_enc_enc, h]; rfl
  · rcases s with ⟨c0, i0, b0, info0⟩ | d | ⟨c1, i1, inf1, p1⟩ | ⟨fs, ss⟩
    · rw [mypub_enc_pair_key, h, Bool.true_or]
    · rw [mypub_enc_pair_data, h]; rfl
    · rw [mypub_enc_pair_enc, h]; rfl
    · rcases ss with ⟨c0, i0, b0, info0⟩ | d | ⟨c1, i1, inf1, p1⟩ | ⟨u, v⟩
      · rw [mypub_enc_pair_pair_key, h, Bool.true_or]
      · rw [mypub_enc_pair_pair_data, h]; rfl
      · rw [mypub_enc_pair_pair_enc, h]; rfl
      · rw [mypub_enc_pair_pair_pair, h]; rfl

/-- One attacker-loop iteration only sends public terms: it preserves
world-soundness. -/
theorem attackerStep_sound (bad : Int → Bool) (w w' : List item)
    (h : attackerStep bad w w') (hw : worldSound bad w) : worldSound bad w' := by
  cases h with
  | leak me id info hbad =>
    intro t ht
    rcases List.mem_cons.mp ht with rfl | ht
    · rw [mypub_key]; simp [hbad]
    · rcases List.mem_cons.mp ht with rfl | ht
      · rw [mypub_key]; simp
      · exact hw t ht
  | pubData d =>
    intro t ht
    rcases List.mem_cons.mp ht with rfl | ht
    · exact mypub_data bad d
    · exact hw t ht
  | mkPair a b ha hb =>
    intro t ht
    rcases List.mem_cons.mp ht with rfl | ht
    · rw [mypub_pair, ha, hb]; rfl
    · exact hw t ht
  | doEncrypt c id info p hk hp =>
    intro t ht
    rcases List.mem_cons.mp ht with rfl | ht
    · exact mypub_enc_intro bad c id info p hp
    · exact hw t ht
  | unPair a b hpub =>
    intro t ht
    rw [mypub_pair, Bool.and_eq_true] at hpub
    rcases List.mem_cons.mp ht with rfl | ht
    · exact hpub.2
    · rcases List.mem_cons.mp ht with rfl | ht
      · exact hpub.1
      · exact hw t ht
  | doDecrypt c id info p hk he =>
    intro t ht
    rcases List.mem_cons.mp ht with rfl | ht
    · exact mypub_decrypt_closure bad c id info t he hk
    · exact hw t ht

/-- C3: world-soundness under the attacker alone. Running the attacker loop by
itself for any bounded number `n` of iterations from a sound world never
inserts a non-public term into the world: every term any attacker action
`net_send`s satisfies `mypub`. -/
theorem attacker_loop_world_soundness (bad : Int → Bool) (n : Nat) (w w' : List item)
    (hsteps : attackerSteps bad n w w') (hw : worldSound bad w) : worldSound bad w' := by
  induction hsteps with
  | zero w => exact hw
  | succ n w w' w'' h hs ih => exact ih (attackerStep_sound bad w w' h hw)

/-- C3 witness: one concrete attacker iteration (publishing `data_item 0`)
from the empty world leaves the world sound. -/
theorem attacker_loop_world_soundness_witness :
    worldSound (fun _ => false) [item.data_item 0] :=
  attacker_loop_world_soundness (fun _ => false) 1 [] [item.data_item 0]
    (attackerSteps.succ 0 [] [item.data_item 0] [item.data_item 0]
      (attackerStep.pubData [] 0) (attackerSteps.zero [item.data_item 0]))
    (fun t ht => absurd ht (List.not_mem_nil t))

theorem regStep_newPrincipal_count (r : Registry) :
    (regStep r .newPrincipal).principalCount = r.principalCount + 1 := rfl

theorem regStep_newPrincipal_key (r : Registry) (q : Int) :
    (regStep r .newPrincipal).keyCount q = if q = r.principalCount then 0 else r.keyCount q := rfl

theorem regStep_newKeypair_count (r : Registry) (p : Int) :
    (regStep r (.newKeypair p)).principalCount = r.principalCount := rfl

theorem regStep_newKeypair_key (r : Registry) (p q : Int) :
    (regStep r (.newKeypair p)).keyCount q = if q = p then r.keyCount q + 1 else r.keyCount q := rfl

/-- Invariant induction for the registry: in a valid run from a registry in
which every not-yet-created principal's counter is zero, the issued
`(creator, index)` pairs are pairwise distinct, and every issued index is at
least the creator's counter at the start of the run. -/
theorem regIssued_nodup_aux (ops : List RegOp) : ∀ r : Registry,
    regValid r ops = true →
    (∀ c : Int, r.principalCount ≤ c → r.keyCount c = 0) →
    (regIssued r ops).Nodup ∧ ∀ q ∈ regIssued r ops, r.keyCount q.1 ≤ q.2 := by
  induction ops with
  | nil =>
    intro r _ _
    exact ⟨List.nodup_nil, by intro q hq; simp [regIssued] at hq⟩
  | cons op ops ih =>
    intro r hv hinv
    cases op with
    | newPrincipal =>
      rw [regValid] at hv
      have hinv' : ∀ c : Int, (regStep r .newPrincipal).principalCount ≤ c →
          (regStep r .newPrincipal).keyCount c = 0 := by
        intro c hc
        rw [regStep_newPrincipal_count] at hc
        rw [regStep_newPrincipal_key]
        have hne : c ≠ r.principalCount := by omega
        simp only [hne, if_false]
        exact hinv c (by omega)
      obtain ⟨hnd, hbound⟩ := ih (regStep r .newPrincipal) hv hinv'
      rw [regIssued]
      refine ⟨hnd, ?_⟩
      intro q hq
      have := hbound q hq
      rw [regStep_newPrincipal_key] at this
      by_cases hqc : q.1 = r.principalCount
      · rw [hinv q.1 (le_of_eq hqc.symm)]
        omega
      · simpa [hqc] using this
    | newKeypair p =>
      rw [regValid, Bool.and_eq_true, decide_eq_true_eq] at hv
      obtain ⟨⟨hp0, hplt⟩, hv⟩ := hv
      have hinv' : ∀ c : Int, (regStep r (.newKeypair p)).principalCount ≤ c →
          (regStep r (.newKeypair p)).keyCount c = 0 := by
        intro c hc
        rw [regStep_newKeypair_count] at hc
        rw [regStep_newKeypair_key]
        have hne : c ≠ p := by omega
        simp only [hne, if_false]
        exact hinv c hc
      obtain ⟨hnd, hbound⟩ := ih (regStep r (.newKeypair p)) hv hinv'
      rw [regIssued]
      constructor
      · refine List.nodup_cons.mpr ⟨?_, hnd⟩
        intro hmem
        have := hbound (p, r.keyCount p) hmem
        rw [regStep_newKeypair_key] at this
        simp at this
      · intro q hq
        rcases List.mem_cons.mp hq with rfl | hq
        · exact le_refl _
        · have := hbound q hq
          rw [regStep_newKeypair_key] at this
          by_cases hqc : q.1 = p
          · rw [hqc] at this ⊢
            simp at this
            omega
          · simpa [hqc] using this

/-- C10: registry uniqueness. In any valid run from the initial registry, no
two `create_keypair` calls produce the same `(creator, index)` pair:
`create_principal` allocates the fresh id `principalCount` with key counter
zero, each `create_keypair` issues the principal's current counter value and
increments it, and the monotone counters are the sole source of indices. -/
theorem registry_unique_key_identities (ops : List RegOp)
    (hv : regValid initRegistry ops = true) :
    (regIssued initRegistry ops).Nodup :=
  (regIssued_nodup_aux ops initRegistry hv (fun _ _ => rfl)).1

/-- C10 witness: a concrete valid run issuing `(0, 0)`, `(0, 1)`, `(1, 0)`. -/
theorem registry_unique_key_identities_witness :
    (regIssued initRegistry
      [RegOp.newPrincipal, RegOp.newKeypair 0, RegOp.newKeypair 0,
       RegOp.newPrincipal, RegOp.newKeypair 1]).Nodup :=
  registry_unique_key_identities _ (by decide)

/-- C7: client response validation. The client's third step succeeds with
server nonce `serverNonce` exactly when the received term is a ciphertext
under the client's private-key identity whose payload is
`Pair(Data(server), Pair(clientNonce, serverNonce))`: a wrong server id or a
wrong echoed nonce (or any shape mismatch) makes the step abort (`none`), and
only when both equality checks pass does the session continue. -/
theorem client_response_validation (server : Int) (ck : KeyFields)
    (clientNonce received serverNonce : item) :
    clientStep3 server ck clientNonce received = some serverNonce ↔
      (ck.isPublicKey = false ∧
        received = item.encrypted_item ck.creator ck.id ck.info
          (item.pair_item (item.data_item server)
            (item.pair_item clientNonce serverNonce))) := by
  constructor
  · intro h
    rcases received with ⟨c0, i0, b0, info0⟩ | d | ⟨c0, i0, info0, pl⟩ | ⟨f, s⟩
    · simp [clientStep3, decrypt] at h
    · simp [clientStep3, decrypt] at h
    · rw [clientStep3] at h
      rw [decrypt] at h
      split_ifs at h with hcond
      obtain ⟨hb, hc, hi, hinfo⟩ := hcond
      subst hc hi hinfo
      rcases pl with ⟨c1, i1, b1, info1⟩ | d1 | ⟨c1, i1, info1, pl1⟩ | ⟨a, b⟩
      · simp [pair_get_first] at h
      · simp [pair_get_first] at h
      · simp [pair_get_first] at h
      · simp only [pair_get_first] at h
        rcases a with ⟨c2, i2, b2, info2⟩ | d2 | ⟨c2, i2, info2, pl2⟩ | ⟨u0, v0⟩
        · simp [item_get_data] at h
        · simp only [item_get_data] at h
          split_ifs at h with hd
          simp only [pair_get_second] at h
          rcases b with ⟨c3, i3, b3, info3⟩ | d3 | ⟨c3, i3, info3, pl3⟩ | ⟨u, v⟩
          · simp [pair_get_first] at h
          · simp [pair_get_first] at h
          · simp [pair_get_first] at h
          · simp only [pair_get_first] at h
            rcases heq : item_equals clientNonce u with _ | _
            · rw [heq] at h
              simp at h
            · rw [heq] at h
              simp [pair_get_second] at h
              have hu : clientNonce = u := by
                rw [item_equals, beq_iff_eq] at heq
                exact heq
              have hd2 : d2 = server := by
                by_contra hne
                exact hd hne
              subst h hd2
              rw [← hu]
              exact ⟨hb, rfl⟩
        · simp [item_get_data] at h
        · simp [item_get_data] at h
    · simp [clientStep3, decrypt] at h
  · rintro ⟨hb, rfl⟩
    rw [clientStep3, decrypt]
    rw [if_pos ⟨hb, rfl, rfl, rfl⟩]
    simp [pair_get_first, item_get_data, pair_get_second, item_equals]

/-- C1: Secrecy. For every completed client/server session in which neither the
client principal nor the server principal is bad, the classifier `mypub`
returns `false` on both the client nonce and the server nonce: first conjunct,
at the client's completion point (the received second message was public and
passed the client's checks); second conjunct, at the end of a completed server
iteration (both received messages were public and passed the server's checks,
with `assume(!bad(client))` as in the source). -/
theorem session_nonce_secrecy (bad : Int → Bool) (client server : Int)
    (hc : bad client = false) (hs : bad server = false) :
    (∀ cskid nid : Int, ∀ sn : item,
      mypub bad (.encrypted_item client cskid (int_pair 0 0)
        (.pair_item (.data_item server)
          (.pair_item (.key_item client nid false (int_pair 1 server)) sn))) = true →
      mypub bad (.key_item client nid false (int_pair 1 server)) = false ∧
        mypub bad sn = false) ∧
    (∀ sskid cnc cni cninfo snid : Int, ∀ cnp : Bool,
      mypub bad (.encrypted_item server sskid (int_pair 0 0)
        (.pair_item (.data_item client) (.key_item cnc cni cnp cninfo))) = true →
      mypub bad (.encrypted_item server sskid (int_pair 0 0)
        (.key_item server snid false
          (int_pair 2 (int_pair client
            (int_pair cnc (int_pair (if cnp then 1 else 0) cninfo)))))) = true →
      mypub bad (.key_item cnc cni cnp cninfo) = false ∧
        mypub bad (.key_item server snid false
          (int_pair 2 (int_pair client
            (int_pair cnc (int_pair (if cnp then 1 else 0) cninfo))))) = false) := by
  constructor
  · -- client side
    intro cskid nid sn hm
    have hcn : mypub bad (.key_item client nid false (int_pair 1 server)) = false := by
      rw [mypub_key]
      simp [hc, hs]
    refine ⟨hcn, ?_⟩
    rcases sn with ⟨c0, i0, b0, info0⟩ | d | ⟨ec, ei, einfo, ep⟩ | ⟨u, v⟩
    · rw [mypub_enc_pair_pair_key, Bool.or_eq_true] at hm
      rcases hm with hm | hm
      · rw [mypub_pair, mypub_pair, hcn] at hm
        simp at hm
      · rw [Bool.and_eq_true, Bool.and_eq_true, Bool.and_eq_true, Bool.and_eq_true,
          Bool.and_eq_true] at hm
        obtain ⟨⟨⟨⟨⟨h2, hcl⟩, hb0⟩, hf⟩, -⟩, -⟩ := hm
        rw [beq_iff_eq] at h2 hcl hf
        rw [Bool.not_eq_true'] at hb0
        have hc0 : c0 = server := by
          injection hf with hf'
          exact hf'.symm
        subst hc0 hb0
        rw [mypub_key, h2, ← hcl]
        simp [hc, hs]
    · rw [mypub_enc_pair_pair_data, Bool.or_false, mypub_pair, mypub_pair, hcn] at hm
      simp at hm
    · rw [mypub_enc_pair_pair_enc, Bool.or_false, mypub_pair, mypub_pair, hcn] at hm
      simp at hm
    · rw [mypub_enc_pair_pair_pair, Bool.or_false, mypub_pair, mypub_pair, hcn] at hm
      simp at hm
  · -- server side
    intro sskid cnc cni cninfo snid cnp _hm1 hm3
    have hns : mypub bad (.key_item server snid false
        (int_pair 2 (int_pair client
          (int_pair cnc (int_pair (if cnp then 1 else 0) cninfo))))) = false := by
      rw [mypub_key]
      simp [hc, hs]
    refine ⟨?_, hns⟩
    rw [mypub_enc_key, Bool.or_eq_true] at hm3
    rcases hm3 with hm3 | hm3
    · rw [hns] at hm3
      exact absurd hm3 (by simp)
    · rw [Bool.and_eq_true, Bool.and_eq_true, Bool.and_eq_true, Bool.and_eq_true,
        Bool.and_eq_true, Bool.and_eq_true] at hm3
      obtain ⟨⟨⟨⟨⟨⟨-, -⟩, -⟩, -⟩, h5⟩, h6⟩, h7⟩ := hm3
      rw [beq_iff_eq] at h5 h6 h7
      simp only [int_left_int_pair, int_right_int_pair] at h5 h6 h7
      -- h5 : client = cnc, h6 : (if cnp then 1 else 0) = 0, h7 : cninfo = int_pair 1 server
      have hcnp : cnp = false := by
        rcases cnp with _ | _
        · rfl
        · simp at h6
      subst hcnp h7
      rw [mypub_key]
      simp only [int_left_int_pair, int_right_int_pair]
      rw [← h5]
      simp [hc, hs]

/-- C1 witness: a concrete completed client session with honest principals
`C = 1`, `S = 2` and `bad(_) = false`, whose two nonces the theorem shows
non-public. -/
theorem session_nonce_secrecy_witness :
    mypub (fun _ => false) (item.key_item 1 0 false (int_pair 1 2)) = false ∧
      mypub (fun _ => false) (item.key_item 2 0 false
        (int_pair 2 (int_pair 1 (int_pair 1 (int_pair 0 (int_pair 1 2)))))) = false :=
  (session_nonce_secrecy (fun _ => false) 1 2 rfl rfl).1 0 0
    (item.key_item 2 0 false
      (int_pair 2 (int_pair 1 (int_pair 1 (int_pair 0 (int_pair 1 2))))))
    (by rw [mypub_enc_pair_pair_key]; simp)

end DolevYaoNSL
